import Mathlib

/-!
Verification of the PSNL (Proxmox Scheduled Network Limiter) schedule-to-action
engine, shallowly embedded from `src/index.ts`.

Strings are modelled as lists of characters (`Str`), so that the JavaScript
`String.prototype.split` on a single-character separator, template-literal
concatenation and `Array.prototype.join` have direct, provable counterparts.
JavaScript objects with string keys (the interface descriptors and guest
configurations) are modelled as insertion-ordered association lists with
unique keys; property assignment overwrites in place or appends, property
access returns the first (unique) match, `delete` removes the key.
-/

/-- A JavaScript string, as its list of characters. -/
abbrev Str := List Char

/-- Character list of a Lean string literal. -/
def strL (s : String) : Str := s.data

/-- An interface descriptor: a string-keyed, string-valued JavaScript object,
as an insertion-ordered association list (`NetworkInterface` in the source). -/
abbrev Descriptor := List (Str × Str)

/-- JavaScript property read `obj[k]`: the value of the first entry with key
`k`, or `none` when the property is absent (`undefined`). -/
def objGet (obj : Descriptor) (k : Str) : Option Str :=
  (obj.find? (fun p => p.1 = k)).map (·.2)

/-- JavaScript property write `obj[k] = v`: overwrite the entry in place when
the key is present, append it otherwise. -/
def objSet (obj : Descriptor) (k v : Str) : Descriptor :=
  if obj.any (fun p => p.1 = k) then
    obj.map (fun p => if p.1 = k then (k, v) else p)
  else
    obj ++ [(k, v)]

/-- JavaScript `delete obj[k]`. -/
def objDelete (obj : Descriptor) (k : Str) : Descriptor :=
  obj.filter (fun p => ¬ (p.1 = k))

/-- JavaScript `s.split(sep)` for a one-character separator: always returns at
least one (possibly empty) field, and empty fields around consecutive or
leading/trailing separators are kept. -/
def splitSep (sep : Char) : Str → List Str
  | [] => [[]]
  | c :: rest =>
    match splitSep sep rest with
    | [] => [[c]]
    | s :: ss => if c = sep then [] :: s :: ss else (c :: s) :: ss

/-- JavaScript `parts.join(sep)` for a one-character separator. -/
def joinSep (sep : Char) : List Str → Str
  | [] => []
  | [x] => x
  | x :: xs => x ++ sep :: joinSep sep xs

/-- One iteration of the `forEach` body of `parseNetworkInterface`:
`const [key, value] = item.split("=")` keeps the first two fields of the split
(`value` is `undefined` when there is no `=`), and the entry is stored only
when `key` is truthy (non-empty) and `value` is defined. -/
def parseSegment (item : Str) : Option (Str × Str) :=
  match splitSep '=' item with
  | k :: v :: _ => if k.isEmpty then none else some (k, v)
  | _ => none

/-- The decoder `NetworkManager.parseNetworkInterface`: split on `,`,
destructure each item on `=`, and assign the kept pairs into a fresh object
in order. -/
def parseNetworkInterface (interfaceString : Str) : Descriptor :=
  (splitSep ',' interfaceString).foldl
    (fun net item =>
      match parseSegment item with
      | some (k, v) => objSet net k v
      | none => net)
    []

/-- The encoder `NetworkManager.buildNetworkInterface`: join the entries as
`key=value` segments separated by `,`. -/
def buildNetworkInterface (net : Descriptor) : Str :=
  joinSep ',' (net.map (fun p => p.1 ++ '=' :: p.2))

/-- JavaScript `rate.toString()` for an integral rate. -/
def rateToStr (rate : Int) : Str := (toString rate).data

/-- The rate mutation `NetworkManager.updateInterfaceRate`: copy the
descriptor; when the rate is falsy (`0`) delete the `rate` key, otherwise set
it to the rate's decimal string. -/
def updateInterfaceRate (net : Descriptor) (rate : Int) : Descriptor :=
  let updatedNet := net
  if rate = 0 then
    objDelete updatedNet (strL "rate")
  else
    objSet updatedNet (strL "rate") (rateToStr rate)

/-! ## Control-plane client (`ProxmoxClient`) -/

/-- The JSON value in the `data` field of a PUT response body. -/
inductive JVal where
  | null
  | bool (b : Bool)
  | num (n : Int)
  | str (s : Str)
  deriving DecidableEq, Repr

/-- A guest configuration as returned by the GET endpoint: interface name to
raw descriptor string. -/
abbrev GuestConfig := List (Str × Str)

/-- The observable part of the HTTP response to the GET issued by
`getCurrentConfig`: `ok`/status line and the `data` field of the JSON body. -/
structure GetResponse where
  ok : Bool
  status : Nat
  statusText : Str
  data : GuestConfig
  deriving DecidableEq, Repr

/-- The observable part of the HTTP response to the PUT issued by
`updateConfig`. -/
structure PutResponse where
  ok : Bool
  status : Nat
  statusText : Str
  data : JVal
  deriving DecidableEq, Repr

/-- The read `ProxmoxClient.getCurrentConfig`, as a function of the HTTP
response: throw on a non-ok status, otherwise return the body's `data`
field. -/
def getCurrentConfig (resp : GetResponse) : Except Str GuestConfig :=
  if resp.ok then
    .ok resp.data
  else
    .error (strL "Failed to get config: " ++ (toString resp.status).data ++
      ' ' :: resp.statusText)

/-- The write `ProxmoxClient.updateConfig`, as a function of the HTTP
response: throw on a non-ok status, otherwise return `data === null`. -/
def updateConfig (resp : PutResponse) : Except Str Bool :=
  if resp.ok then
    .ok (resp.data = JVal.null)
  else
    .error (strL "Failed to update config: " ++ (toString resp.status).data ++
      ' ' :: resp.statusText)

/-- Whether an `Except` is on its `error` branch. -/
def isErr {ε α : Type} : Except ε α → Bool
  | .error _ => true
  | .ok _ => false

/-! ## Trigger action (`ScheduleManager.setNetworkInterface`) -/

/-- The kind of error thrown inside the `try` block of the trigger action. -/
inductive ActionError where
  | remote (msg : Str)
  | interfaceNotFound (msg : Str)
  deriving DecidableEq, Repr

/-- The remote side of one trigger firing: the HTTP response the GET receives
and the HTTP response the PUT receives if one is issued. -/
structure RemoteEnv where
  getResponse : GetResponse
  putResponse : PutResponse
  deriving DecidableEq, Repr

/-- Outcome of the `try` block of `setNetworkInterface`: the value returned or
the error thrown, together with the trace of PUT bodies sent. -/
structure BodyOutcome where
  result : Except ActionError Bool
  writeCalls : List GuestConfig
  deriving Repr

/-- JavaScript truthiness of `currentConfig[interfaceName]` when the property
is a string: `undefined` and the empty string are falsy. -/
def truthyProp (v : Option Str) : Bool :=
  match v with
  | none => false
  | some s => ¬ s.isEmpty

/-- The `try` block of `ScheduleManager.setNetworkInterface`: read the current
config, throw when the target interface is falsy, otherwise parse, apply the
rate, build the one-key patch and PUT it. -/
def setNetworkInterfaceBody (env : RemoteEnv) (interfaceName : Str)
    (interfaceValue : Int) : BodyOutcome :=
  match getCurrentConfig env.getResponse with
  | .error e => ⟨.error (.remote e), []⟩
  | .ok currentConfig =>
    if truthyProp (objGet currentConfig interfaceName) = false then
      ⟨.error (.interfaceNotFound (strL "Interface " ++ interfaceName ++
        strL " not found in VM config")), []⟩
    else
      let currentNet :=
        parseNetworkInterface ((objGet currentConfig interfaceName).getD [])
      let updatedNet := updateInterfaceRate currentNet interfaceValue
      let newConfig : GuestConfig :=
        [(interfaceName, buildNetworkInterface updatedNet)]
      match updateConfig env.putResponse with
      | .error e => ⟨.error (.remote e), [newConfig]⟩
      | .ok b => ⟨.ok b, [newConfig]⟩

/-- What one firing of the action observably does: the boolean it returns, the
PUT bodies it sent, and whether its `catch` block logged an error. -/
structure ActionResult where
  success : Bool
  writeCalls : List GuestConfig
  errorLogged : Bool
  deriving DecidableEq, Repr

/-- The trigger action `ScheduleManager.setNetworkInterface`: the `try` block
wrapped in the `catch` that logs the error and returns `false`. The function
always returns normally — an `ActionResult`, never an exception. -/
def setNetworkInterface (env : RemoteEnv) (interfaceName : Str)
    (interfaceValue : Int) : ActionResult :=
  match setNetworkInterfaceBody env interfaceName interfaceValue with
  | ⟨.ok b, calls⟩ => ⟨b, calls, false⟩
  | ⟨.error _, calls⟩ => ⟨false, calls, true⟩

/-- A batch of independent trigger firings, each with its own remote
environment and target: every action runs and yields its own result. -/
def runActions (batch : List (RemoteEnv × Str × Int)) : List ActionResult :=
  batch.map (fun t => setNetworkInterface t.1 t.2.1 t.2.2)

/-! ## Trigger registration (`ScheduleManager.scheduleNetworkUpdate`) -/

/-- The cron expression built by `scheduleNetworkUpdate`:
`const [hour, minute] = time.split(":")` followed by the template literal
`minute hour * * *`, where an absent `minute` prints as `undefined`. -/
def cronExpression (time : Str) : Str :=
  ((splitSep ':' time).get? 1).getD (strL "undefined") ++
    ' ' :: (splitSep ':' time).headD [] ++ strL " * * *"

/-- Whether `s` is a non-empty string of decimal digits. -/
def isDigitsL (s : Str) : Bool := ¬ s.isEmpty && s.all (·.isDigit)

/-- Numeric value of a digit string. -/
def strToNat (s : Str) : Nat :=
  s.foldl (fun acc c => acc * 10 + (c.toNat - 48)) 0

/-- Modelled from the spec: the validation one field of a cron expression
undergoes in the external cron library (`node-cron`, not part of this
repository), restricted to the constructs reachable from this code path — a
`*` wildcard or a comma-separated list of in-range numbers. -/
def validCronField (lo hi : Nat) (field : Str) : Bool :=
  field = strL "*" ||
    (splitSep ',' field).all
      (fun item => isDigitsL item && lo ≤ strToNat item && strToNat item ≤ hi)

/-- Modelled from the spec: the external cron library's validation of a
five-field `minute hour day-of-month month day-of-week` expression. -/
def cronExpressionValid (expr : Str) : Bool :=
  match splitSep ' ' expr with
  | [mi, h, dom, mon, dow] =>
    validCronField 0 59 mi && validCronField 0 23 h &&
      validCronField 1 31 dom && validCronField 1 12 mon &&
      validCronField 0 7 dow
  | _ => false

/-- Modelled from the spec: `cron.schedule` (external library) registers the
task when the expression is valid and throws otherwise. -/
def cronSchedule (expr : Str) : Except Str Unit :=
  if cronExpressionValid expr then .ok () else .error (strL "Invalid cron expression")

/-- The registration `ScheduleManager.scheduleNetworkUpdate`, as a function of
the time string: build the cron expression from the first two `:`-separated
fields and hand it to `cron.schedule`; returns the registered expression, or
the startup error the library throws. -/
def scheduleNetworkUpdate (time : Str) : Except Str Str :=
  match cronSchedule (cronExpression time) with
  | .ok _ => .ok (cronExpression time)
  | .error e => .error e

/-- The specification's registration-time validity predicate, following its
words: the time string is parseable as `HH:MM` with hour `0–23` and minute
`0–59`. -/
def specValidTimeOfDay (time : Str) : Bool :=
  match splitSep ':' time with
  | [h, m] => isDigitsL h && isDigitsL m && strToNat h ≤ 23 && strToNat m ≤ 59
  | _ => false

/-! ## Heap model of `updateInterfaceRate`

To state that `updateInterfaceRate` does not mutate its argument — a claim
about JavaScript object references — objects live in an explicit heap (a list
of descriptors indexed by reference) and the function is re-read off the
source at that level: `{ ...net }` allocates a fresh object, and the `delete`
or assignment mutates only the fresh reference. -/

/-- A heap of JavaScript objects; a reference is an index into the list. -/
abbrev Heap := List Descriptor

/-- `ScheduleManager`'s `updateInterfaceRate` over an explicit heap: spread
`net` into a freshly allocated copy, mutate the copy in place, return its
reference. An invalid reference is returned unchanged (unreachable in the
program). -/
def updateInterfaceRateH (h : Heap) (net : Nat) (rate : Int) : Heap × Nat :=
  match h.get? net with
  | none => (h, net)
  | some obj =>
    let updatedNet := h.length
    let h1 := h ++ [obj]
    let h2 :=
      if rate = 0 then
        h1.set updatedNet (objDelete obj (strL "rate"))
      else
        h1.set updatedNet (objSet obj (strL "rate") (rateToStr rate))
    (h2, updatedNet)

/-- The segments of the input that `parseNetworkInterface` keeps, as ordered
key-value pairs. -/
def keptPairs (s : Str) : List (Str × Str) :=
  (splitSep ',' s).filterMap parseSegment

/-- Key of a segment in the amended claim's words: the text before the first
`=`. -/
def segKey (seg : Str) : Str := seg.takeWhile (fun c => decide (c ≠ '='))

/-- Value of a segment in the amended claim's words: the text strictly between
the first `=` and the following `=` or end of segment. -/
def segValue (seg : Str) : Str :=
  ((seg.dropWhile (fun c => decide (c ≠ '='))).drop 1).takeWhile
    (fun c => decide (c ≠ '='))

/-- The decoder the amended claim describes: split on `,`; keep a segment when
it contains an `=` and its key is non-empty; map the key to the segment's
value, later segments overwriting earlier ones. -/
def decodeByWords (s : Str) : Descriptor :=
  (splitSep ',' s).foldl
    (fun net seg =>
      if '=' ∈ seg ∧ segKey seg ≠ [] then
        objSet net (segKey seg) (segValue seg)
      else net)
    []

/-! ## Lemmas on the object model -/

theorem objGet_nil (k : Str) : objGet [] k = none := rfl

theorem objGet_cons_self {p : Str × Str} {rest : Descriptor} {k : Str}
    (h : p.1 = k) : objGet (p :: rest) k = some p.2 := by
  unfold objGet
  rw [@List.find?_cons_of_pos _ (fun q : Str × Str => decide (q.1 = k)) p rest
    (decide_eq_true h)]
  rfl

theorem objGet_cons_ne {p : Str × Str} {rest : Descriptor} {k : Str}
    (h : ¬ p.1 = k) : objGet (p :: rest) k = objGet rest k := by
  unfold objGet
  rw [@List.find?_cons_of_neg _ (fun q : Str × Str => decide (q.1 = k)) p rest
    (by simpa using h)]

theorem objGet_append (l1 l2 : Descriptor) (k : Str) :
    objGet (l1 ++ l2) k = (objGet l1 k).or (objGet l2 k) := by
  simp only [objGet, List.find?_append]
  cases List.find? (fun p => decide (p.1 = k)) l1 <;> simp

theorem objGet_overwrite_self (net : Descriptor) (k v : Str)
    (h : net.any (fun p => decide (p.1 = k)) = true) :
    objGet (net.map (fun p => if p.1 = k then (k, v) else p)) k = some v := by
  induction net with
  | nil => simp at h
  | cons p rest ih =>
    by_cases hp : p.1 = k
    · rw [List.map_cons, if_pos hp]
      exact objGet_cons_self rfl
    · rw [List.map_cons, if_neg hp, objGet_cons_ne hp]
      apply ih
      simp only [List.any_cons, Bool.or_eq_true, decide_eq_true_eq] at h
      rcases h with h | h
      · exact absurd h hp
      · exact h

theorem objGet_overwrite_ne (net : Descriptor) (k v k' : Str) (hne : k' ≠ k) :
    objGet (net.map (fun p => if p.1 = k then (k, v) else p)) k' =
      objGet net k' := by
  induction net with
  | nil => rfl
  | cons p rest ih =>
    by_cases hp : p.1 = k
    · rw [List.map_cons, if_pos hp,
        objGet_cons_ne (show ¬ (k, v).1 = k' from fun hk => hne hk.symm),
        objGet_cons_ne (show ¬ p.1 = k' from fun hk => hne (hk.symm.trans hp))]
      exact ih
    · rw [List.map_cons, if_neg hp]
      by_cases hpk : p.1 = k'
      · rw [objGet_cons_self hpk, objGet_cons_self hpk]
      · rw [objGet_cons_ne hpk, objGet_cons_ne hpk]
        exact ih

theorem objGet_not_found (net : Descriptor) (k : Str)
    (h : ¬ net.any (fun p => decide (p.1 = k)) = true) :
    objGet net k = none := by
  have hf : List.find? (fun p => decide (p.1 = k)) net = none := by
    rw [List.find?_eq_none]
    intro x hx hxk
    exact h (List.any_eq_true.mpr ⟨x, hx, hxk⟩)
  simp [objGet, hf]

theorem objGet_objSet_self (net : Descriptor) (k v : Str) :
    objGet (objSet net k v) k = some v := by
  unfold objSet
  split
  · exact objGet_overwrite_self net k v (by assumption)
  · rename_i h
    rw [objGet_append, objGet_not_found net k h, objGet_cons_self rfl]
    rfl

theorem objGet_objSet_ne (net : Descriptor) (k v k' : Str) (hne : k' ≠ k) :
    objGet (objSet net k v) k' = objGet net k' := by
  unfold objSet
  split
  · exact objGet_overwrite_ne net k v k' hne
  · rw [objGet_append,
      objGet_cons_ne (show ¬ (k, v).1 = k' from fun hk => hne hk.symm),
      objGet_nil]
    cases objGet net k' <;> rfl

theorem objDelete_cons_drop {p : Str × Str} {rest : Descriptor} {k : Str}
    (hp : p.1 = k) : objDelete (p :: rest) k = objDelete rest k := by
  unfold objDelete
  rw [List.filter_cons, if_neg (by simp [hp])]

theorem objDelete_cons_keep {p : Str × Str} {rest : Descriptor} {k : Str}
    (hp : ¬ p.1 = k) : objDelete (p :: rest) k = p :: objDelete rest k := by
  unfold objDelete
  rw [List.filter_cons, if_pos (by simpa using hp)]

theorem objGet_objDelete_self (net : Descriptor) (k : Str) :
    objGet (objDelete net k) k = none := by
  induction net with
  | nil => rfl
  | cons p rest ih =>
    by_cases hp : p.1 = k
    · rw [objDelete_cons_drop hp]
      exact ih
    · rw [objDelete_cons_keep hp, objGet_cons_ne hp]
      exact ih

theorem objGet_objDelete_ne (net : Descriptor) (k k' : Str) (hne : k' ≠ k) :
    objGet (objDelete net k) k' = objGet net k' := by
  induction net with
  | nil => rfl
  | cons p rest ih =>
    by_cases hp : p.1 = k
    · have hpk : ¬ p.1 = k' := fun hk => hne (hk.symm.trans hp)
      rw [objDelete_cons_drop hp, objGet_cons_ne hpk]
      exact ih
    · rw [objDelete_cons_keep hp]
      by_cases hpk : p.1 = k'
      · rw [objGet_cons_self hpk, objGet_cons_self hpk]
      · rw [objGet_cons_ne hpk, objGet_cons_ne hpk]
        exact ih

theorem splitSep_ne_nil (sep : Char) (l : Str) : splitSep sep l ≠ [] := by
  cases l with
  | nil => simp [splitSep]
  | cons c rest =>
    simp only [splitSep]
    cases hsp : splitSep sep rest with
    | nil => simp
    | cons s ss => by_cases hc : c = sep <;> simp [hc]

theorem splitSep_of_not_mem (sep : Char) (l : Str) (h : sep ∉ l) :
    splitSep sep l = [l] := by
  induction l with
  | nil => rfl
  | cons c rest ih =>
    rw [List.mem_cons, not_or] at h
    have hc : ¬ c = sep := fun e => h.1 e.symm
    simp only [splitSep, ih h.2]
    simp [hc]

theorem splitSep_append (sep : Char) (xs ys : Str) (h : sep ∉ xs) :
    splitSep sep (xs ++ sep :: ys) = xs :: splitSep sep ys := by
  induction xs with
  | nil =>
    simp only [List.nil_append, splitSep]
    cases hsp : splitSep sep ys with
    | nil => exact absurd hsp (splitSep_ne_nil sep ys)
    | cons s ss => simp
  | cons c xs' ih =>
    rw [List.mem_cons, not_or] at h
    have hc : ¬ c = sep := fun e => h.1 e.symm
    rw [List.cons_append]
    simp only [splitSep]
    rw [ih h.2]
    simp [hc]

theorem headD_splitSep (sep : Char) (l : Str) :
    (splitSep sep l).headD [] = l.takeWhile (fun c => decide (c ≠ sep)) := by
  induction l with
  | nil => rfl
  | cons c rest ih =>
    cases hsp : splitSep sep rest with
    | nil => exact absurd hsp (splitSep_ne_nil sep rest)
    | cons s ss =>
      rw [hsp, List.headD_cons] at ih
      have hstep : splitSep sep (c :: rest) =
          if c = sep then [] :: s :: ss else (c :: s) :: ss := by
        rw [splitSep, hsp]
      rw [hstep]
      by_cases hc : c = sep
      · rw [if_pos hc, List.headD_cons, List.takeWhile_cons,
          if_neg (by simp [hc])]
      · rw [if_neg hc, List.headD_cons, List.takeWhile_cons,
          if_pos (show decide (c ≠ sep) = true by simpa using hc), ih]

theorem exists_first_sep (sep : Char) (l : Str) :
    sep ∉ l ∨ ∃ xs ys, l = xs ++ sep :: ys ∧ sep ∉ xs := by
  induction l with
  | nil => exact .inl (List.not_mem_nil sep)
  | cons c rest ih =>
    by_cases hc : c = sep
    · exact .inr ⟨[], rest, by simp [hc], List.not_mem_nil sep⟩
    · rcases ih with h | ⟨xs, ys, heq, hxs⟩
      · refine .inl ?_
        rw [List.mem_cons, not_or]
        exact ⟨fun e => hc e.symm, h⟩
      · refine .inr ⟨c :: xs, ys, by simp [heq], ?_⟩
        rw [List.mem_cons, not_or]
        exact ⟨fun e => hc e.symm, hxs⟩

theorem takeWhile_append_sep (sep : Char) (xs ys : Str) (h : sep ∉ xs) :
    (xs ++ sep :: ys).takeWhile (fun c => decide (c ≠ sep)) = xs := by
  induction xs with
  | nil => rw [List.nil_append, List.takeWhile_cons, if_neg (by simp)]
  | cons c xs' ih =>
    rw [List.mem_cons, not_or] at h
    have hc : c ≠ sep := fun e => h.1 e.symm
    rw [List.cons_append, List.takeWhile_cons,
      if_pos (show decide (c ≠ sep) = true by simpa using hc), ih h.2]

theorem dropWhile_append_sep (sep : Char) (xs ys : Str) (h : sep ∉ xs) :
    (xs ++ sep :: ys).dropWhile (fun c => decide (c ≠ sep)) = sep :: ys := by
  induction xs with
  | nil => rw [List.nil_append, List.dropWhile_cons, if_neg (by simp)]
  | cons c xs' ih =>
    rw [List.mem_cons, not_or] at h
    have hc : c ≠ sep := fun e => h.1 e.symm
    rw [List.cons_append, List.dropWhile_cons,
      if_pos (show decide (c ≠ sep) = true by simpa using hc), ih h.2]

theorem splitSep_joinSep (sep : Char) (segs : List Str) (hne : segs ≠ [])
    (h : ∀ s ∈ segs, sep ∉ s) :
    splitSep sep (joinSep sep segs) = segs := by
  induction segs with
  | nil => exact absurd rfl hne
  | cons x rest ih =>
    cases rest with
    | nil =>
      simp only [joinSep]
      exact splitSep_of_not_mem sep x (h x (List.mem_cons_self x []))
    | cons y rest' =>
      simp only [joinSep]
      rw [splitSep_append sep x _ (h x (List.mem_cons_self _ _)),
        ih (by simp) (fun s hs => h s (List.mem_cons_of_mem x hs))]

theorem foldl_parse_eq_filterMap (items : List Str) (net : Descriptor) :
    items.foldl
      (fun net item =>
        match parseSegment item with
        | some (k, v) => objSet net k v
        | none => net) net =
    (items.filterMap parseSegment).foldl (fun n p => objSet n p.1 p.2) net := by
  induction items generalizing net with
  | nil => rfl
  | cons i rest ih =>
    cases hp : parseSegment i with
    | none =>
      simp only [List.foldl_cons, List.filterMap_cons, hp]
      exact ih net
    | some p =>
      cases p with
      | mk k v =>
        simp only [List.foldl_cons, List.filterMap_cons, hp]
        exact ih (objSet net k v)

theorem objGet_foldl_objSet (ps : List (Str × Str)) (net : Descriptor)
    (k : Str) :
    objGet (ps.foldl (fun n p => objSet n p.1 p.2) net) k =
      ((ps.filter (fun p => decide (p.1 = k))).getLast?.map
        (fun p => p.2)).or (objGet net k) := by
  induction ps generalizing net with
  | nil => simp
  | cons p rest ih =>
    rw [List.foldl_cons, ih (objSet net p.1 p.2), List.filter_cons]
    by_cases hp : p.1 = k
    · rw [if_pos (by simpa using hp)]
      cases hfr : rest.filter (fun p => decide (p.1 = k)) with
      | nil =>
        have h1 : objGet (objSet net p.1 p.2) k = some p.2 := by
          rw [hp]
          exact objGet_objSet_self net k p.2
        simp [h1]
      | cons q qs =>
        rw [List.getLast?_cons_cons]
        cases hq : (q :: qs).getLast? with
        | none => exact absurd (List.getLast?_eq_none_iff.mp hq) (by simp)
        | some a => rfl
    · rw [if_neg (by simpa using hp),
        objGet_objSet_ne net p.1 p.2 k (fun e => hp e.symm)]

theorem parseSegment_eq_words (seg : Str) :
    parseSegment seg =
      if '=' ∈ seg ∧ segKey seg ≠ [] then some (segKey seg, segValue seg)
      else none := by
  rcases exists_first_sep '=' seg with h | ⟨xs, ys, heq, hxs⟩
  · rw [if_neg (fun hcond => h hcond.1), parseSegment,
      splitSep_of_not_mem '=' seg h]
  · subst heq
    cases hz : splitSep '=' ys with
    | nil => exact absurd hz (splitSep_ne_nil '=' ys)
    | cons z zs =>
      have hps : parseSegment (xs ++ '=' :: ys) =
          if xs.isEmpty then none else some (xs, z) := by
        rw [parseSegment, splitSep_append '=' xs ys hxs, hz]
      have hmem : '=' ∈ xs ++ '=' :: ys :=
        List.mem_append_right xs (List.mem_cons_self _ _)
      have hkey : segKey (xs ++ '=' :: ys) = xs :=
        takeWhile_append_sep '=' xs ys hxs
      have hval : segValue (xs ++ '=' :: ys) = z := by
        rw [segValue, dropWhile_append_sep '=' xs ys hxs,
          List.drop_succ_cons, List.drop_zero]
        have hh := headD_splitSep '=' ys
        rw [hz, List.headD_cons] at hh
        exact hh.symm
      rw [hps]
      by_cases hxsE : xs.isEmpty = true
      · rw [if_pos hxsE,
          if_neg (fun hcond => hcond.2 (hkey.trans (List.isEmpty_iff.mp hxsE)))]
      · have hxs0 : xs ≠ [] := fun e => hxsE (List.isEmpty_iff.mpr e)
        rw [if_neg hxsE, if_pos ⟨hmem, fun e => hxs0 (hkey.symm.trans e)⟩,
          hkey, hval]

/-- Claim C2 counterexample: on the segment `a=b=c` the code keeps only the
text between the first and second `=` as the value (`b`), not everything
after the first `=` (`b=c`). -/
theorem parseNetworkInterface_value_not_rest :
    objGet (parseNetworkInterface (strL "a=b=c")) (strL "a") =
      some (strL "b") ∧
    strL "b" ≠ strL "b=c" := by decide

theorem foldl_parse_eq_words (items : List Str) (net : Descriptor) :
    items.foldl
      (fun net item =>
        match parseSegment item with
        | some (k, v) => objSet net k v
        | none => net) net =
    items.foldl
      (fun net seg =>
        if '=' ∈ seg ∧ segKey seg ≠ [] then
          objSet net (segKey seg) (segValue seg)
        else net) net := by
  induction items generalizing net with
  | nil => rfl
  | cons i rest ih =>
    rw [List.foldl_cons, List.foldl_cons]
    have hstep :
        (match parseSegment i with
          | some (k, v) => objSet net k v
          | none => net) =
        (if '=' ∈ i ∧ segKey i ≠ [] then
          objSet net (segKey i) (segValue i)
        else net) := by
      rw [parseSegment_eq_words i]
      by_cases hcond : '=' ∈ i ∧ segKey i ≠ []
      · rw [if_pos hcond, if_pos hcond]
      · rw [if_neg hcond, if_neg hcond]
    rw [hstep, ih]

/-- Claim C2 (amended): `parseNetworkInterface` splits on `,`, splits each
segment on every `=` and keeps the first two fields — the value is the text
between the first and second `=` (everything after the first `=` only when no
second `=` exists) — dropping segments without a non-empty key or without any
`=`; on `model=virtio,bridge=vmbr0,rate=5` it yields exactly
`{model: virtio, bridge: vmbr0, rate: 5}`. -/
theorem parseNetworkInterface_amended :
    (∀ s : Str, parseNetworkInterface s = decodeByWords s) ∧
    parseNetworkInterface (strL "model=virtio,bridge=vmbr0,rate=5") =
      [(strL "model", strL "virtio"), (strL "bridge", strL "vmbr0"),
       (strL "rate", strL "5")] := by
  constructor
  · intro s
    unfold parseNetworkInterface decodeByWords
    exact foldl_parse_eq_words (splitSep ',' s) []
  · decide

/-- Claim C10: for every input string and key, `parseNetworkInterface` maps
the key to the value of the last kept `key=value` segment bearing it — when a
key occurs in several segments, later segments overwrite earlier ones. -/
theorem parseNetworkInterface_last_segment_wins (s k : Str) :
    objGet (parseNetworkInterface s) k =
      ((keptPairs s).filter (fun p => decide (p.1 = k))).getLast?.map
        (fun p => p.2) := by
  unfold parseNetworkInterface keptPairs
  rw [foldl_parse_eq_filterMap, objGet_foldl_objSet, objGet_nil,
    Option.or_none]

theorem parseSegment_of_wf (k v : Str) (hk : k ≠ []) (hke : '=' ∉ k)
    (hve : '=' ∉ v) : parseSegment (k ++ '=' :: v) = some (k, v) := by
  have hps : parseSegment (k ++ '=' :: v) =
      if k.isEmpty then none else some (k, v) := by
    rw [parseSegment, splitSep_append '=' k v hke, splitSep_of_not_mem '=' v hve]
  rw [hps, if_neg (fun e => hk (List.isEmpty_iff.mp e))]

theorem filterMap_parseSegment_map (d : Descriptor)
    (hk : ∀ p ∈ d, p.1 ≠ [] ∧ '=' ∉ p.1) (hv : ∀ p ∈ d, '=' ∉ p.2) :
    (d.map (fun p => p.1 ++ '=' :: p.2)).filterMap parseSegment = d := by
  induction d with
  | nil => rfl
  | cons p rest ih =>
    obtain ⟨h1, h2⟩ := hk p (List.mem_cons_self _ _)
    simp only [List.map_cons, List.filterMap_cons,
      parseSegment_of_wf p.1 p.2 h1 h2 (hv p (List.mem_cons_self _ _))]
    rw [ih (fun q hq => hk q (List.mem_cons_of_mem p hq))
      (fun q hq => hv q (List.mem_cons_of_mem p hq))]

theorem foldl_objSet_fresh (d : Descriptor) (acc : Descriptor)
    (hnodup : (d.map (fun p => p.1)).Nodup)
    (hfresh : ∀ p ∈ d, acc.any (fun q => decide (q.1 = p.1)) = false) :
    d.foldl (fun n p => objSet n p.1 p.2) acc = acc ++ d := by
  induction d generalizing acc with
  | nil => rw [List.foldl_nil, List.append_nil]
  | cons p rest ih =>
    rw [List.map_cons, List.nodup_cons] at hnodup
    have hset : objSet acc p.1 p.2 = acc ++ [p] := by
      rw [objSet, if_neg (by simp [hfresh p (List.mem_cons_self _ _)])]
    have hfresh' : ∀ q ∈ rest,
        (acc ++ [p]).any (fun r => decide (r.1 = q.1)) = false := by
      intro q hq
      rw [List.any_append, hfresh q (List.mem_cons_of_mem p hq)]
      simp only [List.any_cons, List.any_nil, Bool.or_false, Bool.false_or,
        decide_eq_false_iff_not]
      intro he
      exact hnodup.1 (by rw [he]; exact List.mem_map_of_mem (fun p => p.1) hq)
    rw [List.foldl_cons, hset, ih (acc ++ [p]) hnodup.2 hfresh',
      List.append_assoc]
    rfl

/-- Claim C3 counterexample: a descriptor whose keys are all non-empty but
whose value contains the separator `,` does not survive the encode–decode
round trip. -/
theorem parse_build_not_roundtrip :
    (∀ p ∈ [(strL "a", strL "b,c")], p.1 ≠ []) ∧
    parseNetworkInterface (buildNetworkInterface [(strL "a", strL "b,c")]) ≠
      [(strL "a", strL "b,c")] ∧
    parseNetworkInterface (buildNetworkInterface [(strL "a", strL "b,c")]) =
      [(strL "a", strL "b")] := by decide

/-- Claim C3 (amended): `decode(encode(d)) == d` holds for every descriptor
`d` whose keys are distinct and non-empty and whose keys and values contain
neither the segment separator `,` nor the pair separator `=`. -/
theorem parse_build_roundtrip (d : Descriptor)
    (hnodup : (d.map (fun p => p.1)).Nodup)
    (hkeys : ∀ p ∈ d, p.1 ≠ [] ∧ ',' ∉ p.1 ∧ '=' ∉ p.1)
    (hvals : ∀ p ∈ d, ',' ∉ p.2 ∧ '=' ∉ p.2) :
    parseNetworkInterface (buildNetworkInterface d) = d := by
  rcases d with _ | ⟨p0, rest0⟩
  · rfl
  · have hsegs : ∀ s ∈ (p0 :: rest0).map (fun p => p.1 ++ '=' :: p.2),
        ',' ∉ s := by
      intro s hs
      obtain ⟨p, hp, rfl⟩ := List.mem_map.mp hs
      obtain ⟨hk1, hk2, hk3⟩ := hkeys p hp
      obtain ⟨hv1, hv2⟩ := hvals p hp
      intro hmem
      rcases List.mem_append.mp hmem with h | h
      · exact hk2 h
      · rcases List.mem_cons.mp h with h | h
        · exact absurd h (by decide)
        · exact hv1 h
    unfold parseNetworkInterface buildNetworkInterface
    rw [splitSep_joinSep ',' _ (by simp) hsegs, foldl_parse_eq_filterMap,
      filterMap_parseSegment_map _
        (fun p hp => ⟨(hkeys p hp).1, (hkeys p hp).2.2⟩)
        (fun p hp => (hvals p hp).2),
      foldl_objSet_fresh _ [] hnodup (fun p _ => rfl)]
    rfl

theorem parse_build_roundtrip_witness :
    parseNetworkInterface (buildNetworkInterface
      [(strL "model", strL "virtio"), (strL "bridge", strL "vmbr0")]) =
      [(strL "model", strL "virtio"), (strL "bridge", strL "vmbr0")] :=
  parse_build_roundtrip _ (by decide) (by decide) (by decide)

theorem updateInterfaceRate_zero (net : Descriptor) :
    updateInterfaceRate net 0 = objDelete net (strL "rate") := by
  simp [updateInterfaceRate]

theorem updateInterfaceRate_pos (net : Descriptor) (rate : Int)
    (h : rate ≠ 0) :
    updateInterfaceRate net rate =
      objSet net (strL "rate") (rateToStr rate) := by
  simp [updateInterfaceRate, h]

/-- Claim C1: `applyRate` (`NetworkManager.updateInterfaceRate`) removes the
`rate` key when the rate is `0`, maps `rate` to the decimal string of the rate
when it is positive, and in both cases leaves every other key of the
descriptor at its original value. -/
theorem updateInterfaceRate_rate_key (net : Descriptor) (rate : Int) :
    (rate = 0 → objGet (updateInterfaceRate net rate) (strL "rate") = none) ∧
    (0 < rate →
      objGet (updateInterfaceRate net rate) (strL "rate") =
        some (rateToStr rate)) ∧
    (∀ k, k ≠ strL "rate" →
      objGet (updateInterfaceRate net rate) k = objGet net k) := by
  refine ⟨?_, ?_, ?_⟩
  · intro h0
    subst h0
    rw [updateInterfaceRate_zero]
    exact objGet_objDelete_self net _
  · intro hpos
    rw [updateInterfaceRate_pos net rate (ne_of_gt hpos)]
    exact objGet_objSet_self net _ _
  · intro k hk
    by_cases h0 : rate = 0
    · subst h0
      rw [updateInterfaceRate_zero]
      exact objGet_objDelete_ne net _ k hk
    · rw [updateInterfaceRate_pos net rate h0]
      exact objGet_objSet_ne net _ _ k hk

theorem updateInterfaceRate_rate_key_witness :
    objGet (updateInterfaceRate [(strL "model", strL "virtio"),
      (strL "rate", strL "5")] 0) (strL "rate") = none ∧
    objGet (updateInterfaceRate [(strL "model", strL "virtio")] 7)
      (strL "rate") = some (rateToStr 7) ∧
    objGet (updateInterfaceRate [(strL "model", strL "virtio")] 7)
      (strL "model") = some (strL "virtio") := by
  refine ⟨(updateInterfaceRate_rate_key _ 0).1 rfl,
    (updateInterfaceRate_rate_key _ 7).2.1 (by decide), ?_⟩
  rw [(updateInterfaceRate_rate_key [(strL "model", strL "virtio")] 7).2.2
    (strL "model") (by decide)]
  decide

/-- Claim C8: over the explicit heap, `updateInterfaceRate` never mutates its
argument: the input reference still holds its original descriptor afterwards,
and the returned reference is a fresh one holding the updated descriptor. -/
theorem updateInterfaceRateH_frame (h : Heap) (net : Nat) (rate : Int)
    (obj : Descriptor) (hobj : h.get? net = some obj) :
    (updateInterfaceRateH h net rate).1.get? net = some obj ∧
    (updateInterfaceRateH h net rate).2 ≠ net ∧
    (updateInterfaceRateH h net rate).1.get?
        (updateInterfaceRateH h net rate).2 =
      some (updateInterfaceRate obj rate) := by
  have hlt : net < h.length := by
    by_contra hc
    push_neg at hc
    rw [List.get?_eq_getElem?, List.getElem?_eq_none hc] at hobj
    exact Option.noConfusion hobj
  have hne : h.length ≠ net := Nat.ne_of_gt hlt
  have hlt1 : h.length < (h ++ [obj]).length := by
    simp [List.length_append]
  have happ : (h ++ [obj]).get? net = some obj := by
    rw [List.get?_eq_getElem?, List.getElem?_append, if_pos hlt,
      ← List.get?_eq_getElem?, hobj]
  by_cases h0 : rate = 0
  · subst h0
    simp only [updateInterfaceRateH, hobj, eq_self_iff_true, if_true]
    refine ⟨?_, hne, ?_⟩
    · rw [List.get?_eq_getElem?, List.getElem?_set_ne hne,
        ← List.get?_eq_getElem?, happ]
    · rw [List.get?_eq_getElem?, List.getElem?_set_self hlt1,
        updateInterfaceRate_zero]
  · simp only [updateInterfaceRateH, hobj, if_neg h0]
    refine ⟨?_, hne, ?_⟩
    · rw [List.get?_eq_getElem?, List.getElem?_set_ne hne,
        ← List.get?_eq_getElem?, happ]
    · rw [List.get?_eq_getElem?, List.getElem?_set_self hlt1,
        updateInterfaceRate_pos obj rate h0]

theorem updateInterfaceRateH_frame_witness :
    (updateInterfaceRateH [[(strL "rate", strL "5")]] 0 3).1.get? 0 =
      some [(strL "rate", strL "5")] ∧
    (updateInterfaceRateH [[(strL "rate", strL "5")]] 0 3).2 ≠ 0 ∧
    (updateInterfaceRateH [[(strL "rate", strL "5")]] 0 3).1.get?
        (updateInterfaceRateH [[(strL "rate", strL "5")]] 0 3).2 =
      some (updateInterfaceRate [(strL "rate", strL "5")] 3) :=
  updateInterfaceRateH_frame [[(strL "rate", strL "5")]] 0 3
    [(strL "rate", strL "5")] (by decide)

/-- Claim C4: `writeConfig` (`ProxmoxClient.updateConfig`) throws exactly when
the HTTP response is not ok; on an ok response it returns `true` iff the
body's `data` is JSON `null`, and returns `false` — without throwing — for any
non-null `data`. -/
theorem updateConfig_success_convention (resp : PutResponse) :
    (isErr (updateConfig resp) = true ↔ resp.ok = false) ∧
    (resp.ok = true →
      updateConfig resp = .ok (decide (resp.data = JVal.null))) ∧
    (resp.ok = true → resp.data ≠ JVal.null → updateConfig resp = .ok false) ∧
    (updateConfig resp = .ok true ↔ resp.ok = true ∧ resp.data = JVal.null) := by
  cases hok : resp.ok with
  | false =>
    refine ⟨by simp [updateConfig, hok, isErr], by simp [hok], by simp [hok], ?_⟩
    simp [updateConfig, hok]
  | true =>
    refine ⟨by simp [updateConfig, hok, isErr], ?_, ?_, ?_⟩
    · intro _
      simp [updateConfig, hok]
    · intro _ hnull
      simp [updateConfig, hok, hnull]
    · by_cases hd : resp.data = JVal.null <;> simp [updateConfig, hok, hd]

theorem updateConfig_success_convention_witness :
    (updateConfig ⟨true, 200, strL "OK", JVal.num 1⟩ = .ok false) ∧
    (updateConfig ⟨true, 200, strL "OK", JVal.null⟩ = .ok true) ∧
    isErr (updateConfig ⟨false, 500, strL "Internal Server Error",
      JVal.null⟩) = true := by
  refine ⟨(updateConfig_success_convention _).2.2.1 rfl (by decide), ?_, ?_⟩
  · exact (updateConfig_success_convention
      ⟨true, 200, strL "OK", JVal.null⟩).2.2.2.mpr ⟨rfl, rfl⟩
  · exact (updateConfig_success_convention _).1.mpr rfl

theorem not_mem_of_isDigitsL {s : Str} (hd : isDigitsL s = true) {c : Char}
    (hc : c.isDigit = false) : c ∉ s := by
  intro hmem
  rw [isDigitsL, Bool.and_eq_true] at hd
  have h2 := List.all_eq_true.mp hd.2 c hmem
  rw [hc] at h2
  exact Bool.noConfusion h2

/-- Claim C7 counterexample: `1:2:3` is not parseable as `HH:MM`, yet
registration builds the valid cron expression `2 1 * * *` from its first two
`:`-fields and succeeds instead of failing fast. -/
theorem scheduleNetworkUpdate_accepts_malformed :
    specValidTimeOfDay (strL "1:2:3") = false ∧
    scheduleNetworkUpdate (strL "1:2:3") = .ok (strL "2 1 * * *") :=
  ⟨by decide, rfl⟩

/-- Claim C7 (amended): registration rejects a time string exactly when the
cron expression built from its first two `:`-fields is invalid; every
`HH:MM`-parseable time (hour 0–23, minute 0–59) is accepted, but acceptance
does not require `HH:MM` shape, so not every malformed time fails fast. -/
theorem scheduleNetworkUpdate_validation (t : Str) :
    (specValidTimeOfDay t = true → isErr (scheduleNetworkUpdate t) = false) ∧
    (isErr (scheduleNetworkUpdate t) = true ↔
      cronExpressionValid (cronExpression t) = false) := by
  constructor
  · intro hv
    cases hsp : splitSep ':' t with
    | nil => exact absurd hsp (splitSep_ne_nil ':' t)
    | cons hh tl =>
      cases tl with
      | nil =>
        rw [specValidTimeOfDay, hsp] at hv
        simp at hv
      | cons mm tl2 =>
        cases tl2 with
        | cons q tl3 =>
          rw [specValidTimeOfDay, hsp] at hv
          simp at hv
        | nil =>
          rw [specValidTimeOfDay, hsp] at hv
          simp only [Bool.and_eq_true, decide_eq_true_eq] at hv
          obtain ⟨⟨⟨hdh, hdm⟩, hh23⟩, hm59⟩ := hv
          have hmmSpace : ' ' ∉ mm := not_mem_of_isDigitsL hdm (by decide)
          have hhhSpace : ' ' ∉ hh := not_mem_of_isDigitsL hdh (by decide)
          have hmmComma : ',' ∉ mm := not_mem_of_isDigitsL hdm (by decide)
          have hhhComma : ',' ∉ hh := not_mem_of_isDigitsL hdh (by decide)
          have hcron : cronExpression t =
              mm ++ (' ' :: (hh ++ strL " * * *")) := by
            rw [cronExpression, hsp]
            simp
          have hsplit : splitSep ' ' (cronExpression t) =
              [mm, hh, strL "*", strL "*", strL "*"] := by
            rw [hcron, show strL " * * *" = ' ' :: strL "* * *" by decide,
              splitSep_append ' ' mm _ hmmSpace,
              splitSep_append ' ' hh _ hhhSpace,
              show splitSep ' ' (strL "* * *") =
                [strL "*", strL "*", strL "*"] by decide]
          have f1 : validCronField 0 59 mm = true := by
            rw [validCronField, splitSep_of_not_mem ',' mm hmmComma]
            simp [hdm, hm59]
          have f2 : validCronField 0 23 hh = true := by
            rw [validCronField, splitSep_of_not_mem ',' hh hhhComma]
            simp [hdh, hh23]
          have hred : cronExpressionValid (cronExpression t) =
              (validCronField 0 59 mm && validCronField 0 23 hh &&
               validCronField 1 31 (strL "*") &&
               validCronField 1 12 (strL "*") &&
               validCronField 0 7 (strL "*")) := by
            rw [cronExpressionValid, hsplit]
          have hvalid : cronExpressionValid (cronExpression t) = true := by
            rw [hred, f1, f2]
            decide
          rw [scheduleNetworkUpdate, cronSchedule, if_pos hvalid]
          rfl
  · cases hv : cronExpressionValid (cronExpression t) with
    | true =>
      rw [scheduleNetworkUpdate, cronSchedule, if_pos hv]
      simp [isErr]
    | false =>
      rw [scheduleNetworkUpdate, cronSchedule, if_neg (by simp [hv])]
      simp [isErr]

theorem scheduleNetworkUpdate_validation_witness :
    isErr (scheduleNetworkUpdate (strL "07:30")) = false ∧
    (isErr (scheduleNetworkUpdate (strL "25:00")) = true ↔
      cronExpressionValid (cronExpression (strL "25:00")) = false) :=
  ⟨(scheduleNetworkUpdate_validation (strL "07:30")).1 (by decide),
   (scheduleNetworkUpdate_validation (strL "25:00")).2⟩

theorem getCurrentConfig_ok (resp : GetResponse) (h : resp.ok = true) :
    getCurrentConfig resp = .ok resp.data := by
  simp [getCurrentConfig, h]

theorem setNetworkInterfaceBody_not_truthy (env : RemoteEnv) (ifname : Str)
    (rate : Int) (hok : env.getResponse.ok = true)
    (habs : truthyProp (objGet env.getResponse.data ifname) = false) :
    setNetworkInterfaceBody env ifname rate =
      ⟨.error (.interfaceNotFound (strL "Interface " ++ ifname ++
        strL " not found in VM config")), []⟩ := by
  rw [setNetworkInterfaceBody, getCurrentConfig_ok env.getResponse hok]
  simp [habs]

/-- Claim C5: when the guest config returned by the read lacks the target
interface name, the action issues no write, its thrown error is the
interface-not-found (`ConfigurationError`) kind, and it returns a logged
failure result rather than crashing. -/
theorem setNetworkInterface_missing_interface (env : RemoteEnv) (ifname : Str)
    (rate : Int) (hok : env.getResponse.ok = true)
    (habs : objGet env.getResponse.data ifname = none) :
    setNetworkInterface env ifname rate =
      ⟨false, [], true⟩ ∧
    (setNetworkInterfaceBody env ifname rate).result =
      .error (.interfaceNotFound (strL "Interface " ++ ifname ++
        strL " not found in VM config")) := by
  have hbody := setNetworkInterfaceBody_not_truthy env ifname rate hok
    (by rw [habs]; rfl)
  constructor
  · rw [setNetworkInterface, hbody]
  · rw [hbody]

theorem setNetworkInterface_missing_interface_witness :
    setNetworkInterface
        ⟨⟨true, 200, strL "OK", [(strL "net1", strL "model=virtio")]⟩,
         ⟨true, 200, strL "OK", JVal.null⟩⟩ (strL "net0") 5 =
      ⟨false, [], true⟩ :=
  (setNetworkInterface_missing_interface _ (strL "net0") 5 rfl (by decide)).1

/-- Claim C9: a falsy descriptor value — the empty string — under the target
interface name is treated exactly like an absent interface, because presence
is tested by truthiness: no write is issued, the action fails, and the result
is identical to the one for a config with the binding removed. -/
theorem setNetworkInterface_falsy_interface (env : RemoteEnv) (ifname : Str)
    (rate : Int) (hok : env.getResponse.ok = true)
    (hempty : objGet env.getResponse.data ifname = some []) :
    setNetworkInterface env ifname rate = ⟨false, [], true⟩ ∧
    setNetworkInterface env ifname rate =
      setNetworkInterface
        ⟨⟨env.getResponse.ok, env.getResponse.status,
          env.getResponse.statusText,
          objDelete env.getResponse.data ifname⟩,
         env.putResponse⟩ ifname rate := by
  have hbody := setNetworkInterfaceBody_not_truthy env ifname rate hok
    (by rw [hempty]; rfl)
  have habs' :
      objGet (objDelete env.getResponse.data ifname) ifname = none :=
    objGet_objDelete_self _ _
  have hbody' := setNetworkInterfaceBody_not_truthy
    ⟨⟨env.getResponse.ok, env.getResponse.status, env.getResponse.statusText,
      objDelete env.getResponse.data ifname⟩, env.putResponse⟩
    ifname rate hok (by rw [habs']; rfl)
  constructor
  · rw [setNetworkInterface, hbody]
  · rw [setNetworkInterface, hbody, setNetworkInterface, hbody']

theorem setNetworkInterface_falsy_interface_witness :
    setNetworkInterface
        ⟨⟨true, 200, strL "OK", [(strL "net0", strL "")]⟩,
         ⟨true, 200, strL "OK", JVal.null⟩⟩ (strL "net0") 5 =
      ⟨false, [], true⟩ :=
  (setNetworkInterface_falsy_interface _ (strL "net0") 5 rfl (by decide)).1

/-- Claim C6: every error thrown inside the trigger action stops at its
boundary — the action returns a failure result with the error logged, never an
exception — and actions in a batch are independent: each firing's result is
its own, regardless of what surrounds it. -/
theorem setNetworkInterface_isolates_errors (env : RemoteEnv) (ifname : Str)
    (rate : Int) :
    (isErr (setNetworkInterfaceBody env ifname rate).result = true →
      (setNetworkInterface env ifname rate).success = false ∧
      (setNetworkInterface env ifname rate).errorLogged = true) ∧
    ∀ (pre post : List (RemoteEnv × Str × Int)) (t : RemoteEnv × Str × Int),
      runActions (pre ++ t :: post) =
        runActions pre ++
          setNetworkInterface t.1 t.2.1 t.2.2 :: runActions post := by
  constructor
  · intro herr
    cases hb : setNetworkInterfaceBody env ifname rate with
    | mk result calls =>
      cases result with
      | ok b => rw [hb] at herr; exact absurd herr (by simp [isErr])
      | error e => rw [setNetworkInterface, hb]; exact ⟨rfl, rfl⟩
  · intro pre post t
    simp [runActions]

theorem setNetworkInterface_isolates_errors_witness :
    ((setNetworkInterface ⟨⟨false, 500, strL "Internal Server Error", []⟩,
        ⟨true, 200, strL "OK", JVal.null⟩⟩ (strL "net0") 5).success = false ∧
     (setNetworkInterface ⟨⟨false, 500, strL "Internal Server Error", []⟩,
        ⟨true, 200, strL "OK", JVal.null⟩⟩ (strL "net0") 5).errorLogged =
       true) ∧
    runActions [(⟨⟨false, 500, strL "Internal Server Error", []⟩,
        ⟨true, 200, strL "OK", JVal.null⟩⟩, strL "net0", 5)] =
      [setNetworkInterface ⟨⟨false, 500, strL "Internal Server Error", []⟩,
        ⟨true, 200, strL "OK", JVal.null⟩⟩ (strL "net0") 5] := by
  have h := setNetworkInterface_isolates_errors
    ⟨⟨false, 500, strL "Internal Server Error", []⟩,
     ⟨true, 200, strL "OK", JVal.null⟩⟩ (strL "net0") 5
  refine ⟨h.1 (by decide), ?_⟩
  have h2 := h.2 [] []
    (⟨⟨false, 500, strL "Internal Server Error", []⟩,
      ⟨true, 200, strL "OK", JVal.null⟩⟩, strL "net0", 5)
  simpa using h2
